import Mathlib

/-!
Verification of `parameter-schema` (`src/schema.ts`): a shallow embedding of
the schema classes and their `validate` methods, followed by theorems about
the claims of the specification.

Modelling choices:
* JavaScript runtime values are the inductive `Value`; numbers are modelled
  as integers (the claims only use ordering, membership and equality of
  numbers, never float-specific behaviour).
* The result pair `[boolean, T | undefined]` of `validate` is `Bool × Value`,
  with `Value.vUndefined` playing the role of `undefined` ("absent").
* `hasDefaultValue` together with `_default` is collapsed into a single
  `Option Value` (`none` = the `defaultValue` key was never set); an explicit
  `defaultValue: undefined` is `some .vUndefined`, matching the
  `hasOwnProperty` check of the `Schema` constructor.
* A supplied custom validation function (`validate` option or `setValidate`)
  is `customValidate : Option (Value → Bool)`; when it is `none` the built-in
  predicate installed by the variant's constructor is used.  The built-in
  predicates read the *current* `range`/`min`/`max` fields (in the source they
  are closures over `this`), which the per-variant `validate` equations below
  reproduce by recomputing the built-in predicate from the current fields.
-/

set_option linter.unusedVariables false

/-- A JavaScript runtime value.  Objects are association lists of
own enumerable properties (a real JS object has pairwise distinct keys;
lists with duplicated keys do not correspond to a JS value). -/
inductive Value : Type where
  | vUndefined : Value
  | vNull : Value
  | vStr : String → Value
  | vNum : Int → Value
  | vBool : Bool → Value
  | vArr : List Value → Value
  | vObj : List (String × Value) → Value

/-- Modelled from the spec: `utils.ts` is imported by `schema.ts` but is not
under `src/`; the spec describes `is-nil` as the "null or undefined-equivalent"
check used by every schema variant. -/
def isNil : Value → Bool
  | .vUndefined => true
  | .vNull => true
  | _ => false

/-- Modelled from the spec: `isValidString` of the missing `utils.ts`,
described as a pure type-tag check. -/
def isValidString : Value → Bool
  | .vStr _ => true
  | _ => false

/-- Modelled from the spec: `isValidNumber` of the missing `utils.ts`,
described as a pure type-tag check. -/
def isValidNumber : Value → Bool
  | .vNum _ => true
  | _ => false

/-- Modelled from the spec: `isValidBoolean` of the missing `utils.ts`,
described as a pure type-tag check. -/
def isValidBoolean : Value → Bool
  | .vBool _ => true
  | _ => false

/-- Modelled from the spec: `isValidArray` of the missing `utils.ts`,
described as a pure type-tag check. -/
def isValidArray : Value → Bool
  | .vArr _ => true
  | _ => false

/-- JavaScript `ToBoolean` (used by `param = param || ...` and by the
`_isValid && _result` test of `ArraySchema.validate`). -/
def truthy : Value → Bool
  | .vUndefined => false
  | .vNull => false
  | .vStr s => !(s == "")
  | .vNum n => !(n == 0)
  | .vBool b => b
  | .vArr _ => true
  | .vObj _ => true

/-- `Number.MAX_VALUE`, exactly `(2 - 2 ^ (-52)) * 2 ^ 1023`. -/
def numberMaxValue : Int := 2 ^ 1024 - 2 ^ 971

/-- The state declared by the base `Schema` class: `hasDefaultValue`/`_default`
(collapsed into `dflt : Option Value`), `_isRequired`, and the custom
`_validate` function when one was supplied (`customValidate = none` means the
variant's built-in predicate is in effect). -/
structure SchemaBase : Type where
  dflt : Option Value
  isRequired : Bool
  customValidate : Option (Value → Bool)

/-- The schema class hierarchy of `schema.ts` as a sum: each constructor
carries the base-class state plus the variant's own fields
(`_range`, `_min`, `_max`, `_schema`, `_schemas`). -/
inductive Schema : Type where
  | string (b : SchemaBase) (range : Option (List String))
  | stringArray (b : SchemaBase) (range : Option (List String))
  | number (b : SchemaBase) (min max : Int) (range : Option (List Int))
  | numberArray (b : SchemaBase) (min max : Int) (range : Option (List Int))
  | boolean (b : SchemaBase)
  | booleanArray (b : SchemaBase)
  | object (b : SchemaBase) (fieldSchemas : List (String × Schema))
  | objectArray (b : SchemaBase) (itemSchema : Schema)
  | array (b : SchemaBase) (schemas : List Schema)

/-- The base-class state of any schema. -/
def Schema.base : Schema → SchemaBase
  | .string b _ => b
  | .stringArray b _ => b
  | .number b _ _ _ => b
  | .numberArray b _ _ _ => b
  | .boolean b => b
  | .booleanArray b => b
  | .object b _ => b
  | .objectArray b _ => b
  | .array b _ => b

/-- The built-in predicate installed by the `StringSchema` constructor:
`isValidString` plus membership in `_range` when set. -/
def stringPred (range : Option (List String)) (param : Value) : Bool :=
  match param with
  | .vStr s =>
    match range with
    | some r => r.contains s
    | none => true
  | _ => false

/-- The built-in predicate installed by the `StringArraySchema` constructor:
`isValidArray` plus, per item, `isValidString` and range membership. -/
def stringArrayPred (range : Option (List String)) (param : Value) : Bool :=
  match param with
  | .vArr items => items.all (fun item => stringPred range item)
  | _ => false

/-- The built-in predicate installed by the `NumberSchema` constructor:
`isValidNumber`, then range membership when `_range` is set, otherwise the
inclusive `[min, max]` bounds. -/
def numberPred (min max : Int) (range : Option (List Int)) (param : Value) : Bool :=
  match param with
  | .vNum n =>
    match range with
    | some r => r.contains n
    | none => decide (min ≤ n) && decide (n ≤ max)
  | _ => false

/-- The built-in predicate installed by the `NumberArraySchema` constructor. -/
def numberArrayPred (min max : Int) (range : Option (List Int)) (param : Value) : Bool :=
  match param with
  | .vArr items => items.all (fun item => numberPred min max range item)
  | _ => false

/-- The built-in predicate installed by the `BooleanArraySchema` constructor. -/
def booleanArrayPred (param : Value) : Bool :=
  match param with
  | .vArr items => items.all (fun item => isValidBoolean item)
  | _ => false

/-- The leading nil block of every `validate` method (the base class declares
it once; `ObjectSchema`, `ObjectArraySchema` and `ArraySchema` repeat it
verbatim): `some res` is an early `return res`, `none` is fall-through. -/
def nilCheck (b : SchemaBase) (param : Value) : Option (Bool × Value) :=
  if isNil param then
    match b.dflt with
    | some d => some (true, d)
    | none => if !b.isRequired then some (true, .vUndefined) else none
  else none

/-- `Schema.validate` of the base class: the nil block, then the predicate in
effect (the custom one when supplied, else `builtin`). -/
def baseValidate (b : SchemaBase) (builtin : Value → Bool) (param : Value) : Bool × Value :=
  match nilCheck b param with
  | some res => res
  | none =>
    if (b.customValidate.getD builtin) param then (true, param) else (false, .vUndefined)

/-- JS property read `param[key]` as used by `ObjectSchema.validate`:
own-property lookup on objects; property access on non-objects (prototype
members, string indices) is not modelled and yields `undefined`. -/
def lookupField (param : Value) (key : String) : Value :=
  match param with
  | .vObj fields => (List.lookup key fields).getD .vUndefined
  | _ => .vUndefined

/-- The own enumerable entries enumerated by the `for (const key in param)`
copy loop of `ObjectSchema.validate`'s custom-predicate branch. -/
def ownEnumerableEntries : Value → List (String × Value)
  | .vObj fields => fields
  | .vArr items => items.enum.map (fun p => (toString p.1, p.2))
  | .vStr s => s.toList.enum.map (fun p => (toString p.1, .vStr (String.mk [p.2])))
  | _ => []

mutual

/-- `validate` of every schema variant.  Scalar variants inherit
`Schema.validate` (lines 191–206); `ObjectSchema` (701–738),
`ObjectArraySchema` (807–846) and `ArraySchema` (894–941) override it. -/
def validate : Schema → Value → Bool × Value
  | .string b range, param => baseValidate b (stringPred range) param
  | .stringArray b range, param => baseValidate b (stringArrayPred range) param
  | .number b mn mx range, param => baseValidate b (numberPred mn mx range) param
  | .numberArray b mn mx range, param => baseValidate b (numberArrayPred mn mx range) param
  | .boolean b, param => baseValidate b isValidBoolean param
  | .booleanArray b, param => baseValidate b booleanArrayPred param
  | .object b fieldSchemas, param =>
    match nilCheck b param with
    | some res => res
    | none =>
      -- param = param || Object.create(null)
      let p := if truthy param then param else .vObj []
      match b.customValidate with
      | some f =>
        -- useValidate branch: predicate on the input, then copy every key
        if f p then (true, .vObj (ownEnumerableEntries p)) else (false, .vUndefined)
      | none =>
        match validateFields fieldSchemas p with
        | some entries => (true, .vObj entries)
        | none => (false, .vUndefined)
  | .objectArray b itemSchema, param =>
    match nilCheck b param with
    | some res => res
    | none =>
      match param with
      | .vArr items =>
        match b.customValidate with
        | some f => if f (.vArr items) then (true, .vArr items) else (false, .vUndefined)
        | none =>
          match validateItems itemSchema items with
          | some rs => (true, .vArr rs)
          | none => (false, .vUndefined)
      | _ => (false, .vUndefined)
  | .array b schemas, param =>
    match nilCheck b param with
    | some res => res
    | none =>
      match param with
      | .vArr items =>
        match b.customValidate with
        | some f => if f (.vArr items) then (true, .vArr items) else (false, .vUndefined)
        | none =>
          match validateMixed schemas items with
          | some rs => (true, .vArr rs)
          | none => (false, .vUndefined)
      | _ => (false, .vUndefined)
termination_by s param => (sizeOf s, 0)

/-- The `for (const key in this._schema)` loop of `ObjectSchema.validate`:
each declared field is validated against the corresponding property of the
input; on success `result[key] = _result` is recorded (also when `_result`
is `undefined`), on the first failure the loop breaks and the whole object
is rejected. -/
def validateFields : List (String × Schema) → Value → Option (List (String × Value))
  | [], _ => some []
  | (key, sub) :: rest, param =>
    match validate sub (lookupField param key) with
    | (true, r) =>
      match validateFields rest param with
      | some entries => some ((key, r) :: entries)
      | none => none
    | (false, _) => none
termination_by fields param => (sizeOf fields, 0)

/-- The element loop of `ObjectArraySchema.validate`: every element must pass
`_schema.validate`; a passing element's result is pushed unless it is nil;
the first failing element rejects the whole array. -/
def validateItems (itemSchema : Schema) : List Value → Option (List Value)
  | [] => some []
  | item :: rest =>
    match validate itemSchema item with
    | (true, r) =>
      match validateItems itemSchema rest with
      | some rs => some (if isNil r then rs else r :: rs)
      | none => none
    | (false, _) => none
termination_by items => (sizeOf itemSchema, items.length + 1)

/-- The inner loop of `ArraySchema.validate`: alternatives are tried in
declared order and the first one whose result is accepted *and truthy*
(`if (_isValid && _result)`) supplies the sanitized element. -/
def firstAccepted : List Schema → Value → Option Value
  | [], _ => none
  | schema :: rest, item =>
    match validate schema item with
    | (ok, r) => if ok && truthy r then some r else firstAccepted rest item
termination_by schemas item => (sizeOf schemas, 0)

/-- The outer element loop of `ArraySchema.validate`: an element with no
accepting alternative rejects the whole array. -/
def validateMixed (schemas : List Schema) : List Value → Option (List Value)
  | [] => some []
  | item :: rest =>
    match firstAccepted schemas item with
    | some r =>
      match validateMixed schemas rest with
      | some rs => some (r :: rs)
      | none => none
    | none => none
termination_by items => (sizeOf schemas, items.length + 1)

end

/-- The base state produced by the `Schema` constructor when none of
`defaultValue`, `required`, `validate` is supplied: no default, required,
built-in predicate in effect. -/
def defaultBase : SchemaBase := { dflt := none, isRequired := true, customValidate := none }

/-- Replace the base-class state of a schema (modelling helper for the
fluent setters, which mutate fields declared on the base class). -/
def Schema.withBase : Schema → SchemaBase → Schema
  | .string _ range, b => .string b range
  | .stringArray _ range, b => .stringArray b range
  | .number _ mn mx range, b => .number b mn mx range
  | .numberArray _ mn mx range, b => .numberArray b mn mx range
  | .boolean _, b => .boolean b
  | .booleanArray _, b => .booleanArray b
  | .object _ fieldSchemas, b => .object b fieldSchemas
  | .objectArray _ itemSchema, b => .objectArray b itemSchema
  | .array _ schemas, b => .array b schemas

/-- `Schema.setDefault`: sets `hasDefaultValue` and stores the value. -/
def Schema.setDefault (s : Schema) (d : Value) : Schema :=
  s.withBase { s.base with dflt := some d }

/-- `Schema.setRequired` (its `isValidBoolean` guard always passes for a
boolean argument). -/
def Schema.setRequired (s : Schema) (r : Bool) : Schema :=
  s.withBase { s.base with isRequired := r }

/-- `setValidate`: installs a custom predicate (for `ObjectSchema`,
`ObjectArraySchema` and `ArraySchema` this also sets their `useValidate`
flag, which here coincides with `customValidate` being `some`). -/
def Schema.setValidate (s : Schema) (f : Value → Bool) : Schema :=
  s.withBase { s.base with customValidate := some f }

/-- The `NumberSchema` constructor's option handling: `_min` defaults to `0`,
`_max` to `Number.MAX_VALUE`, `_range` stays unset when the option is nil;
the base options (`defaultValue` presence, `required`, custom `validate`)
are as in the base constructor. -/
def numberSchemaOfOptions (dflt : Option Value) (required : Option Bool)
    (custom : Option (Value → Bool)) (min? max? : Option Int)
    (range : Option (List Int)) : Schema :=
  .number { dflt := dflt, isRequired := required.getD true, customValidate := custom }
    (min?.getD 0) (max?.getD numberMaxValue) range

/-- The `StringSchema` constructor's option handling. -/
def stringSchemaOfOptions (dflt : Option Value) (required : Option Bool)
    (custom : Option (Value → Bool)) (range : Option (List String)) : Schema :=
  .string { dflt := dflt, isRequired := required.getD true, customValidate := custom } range

/-- The variants that inherit the base-class `validate` (every scalar schema
and its array form; `object`, `object[]` and `array` override it). -/
def Schema.isScalarVariant : Schema → Bool
  | .string _ _ => true
  | .stringArray _ _ => true
  | .number _ _ _ _ => true
  | .numberArray _ _ _ _ => true
  | .boolean _ => true
  | .booleanArray _ => true
  | _ => false

/-- The built-in predicate a variant's constructor installs when no custom
`validate` is supplied (for the three composite variants the inherited
base-class fallback is the truthiness check, which their overridden
`validate` never consults unless a custom predicate was installed). -/
def Schema.builtinPred : Schema → Value → Bool
  | .string _ range => stringPred range
  | .stringArray _ range => stringArrayPred range
  | .number _ mn mx range => numberPred mn mx range
  | .numberArray _ mn mx range => numberArrayPred mn mx range
  | .boolean _ => isValidBoolean
  | .booleanArray _ => booleanArrayPred
  | .object _ _ => truthy
  | .objectArray _ _ => truthy
  | .array _ _ => truthy

/-- The predicate `this._validate` in effect on a schema: the custom one when
supplied, otherwise the built-in one. -/
def Schema.effValidate (s : Schema) : Value → Bool :=
  s.base.customValidate.getD s.builtinPred

mutual

/-- A schema with no default value and no custom predicate anywhere, whose
object field names are pairwise distinct (as the keys of a JS record are),
and containing no mixed-`array` schema. -/
def plain : Schema → Bool
  | .string b _ => b.dflt.isNone && b.customValidate.isNone
  | .stringArray b _ => b.dflt.isNone && b.customValidate.isNone
  | .number b _ _ _ => b.dflt.isNone && b.customValidate.isNone
  | .numberArray b _ _ _ => b.dflt.isNone && b.customValidate.isNone
  | .boolean b => b.dflt.isNone && b.customValidate.isNone
  | .booleanArray b => b.dflt.isNone && b.customValidate.isNone
  | .object b fieldSchemas =>
    b.dflt.isNone && b.customValidate.isNone &&
      decide (fieldSchemas.map Prod.fst).Nodup && plainFields fieldSchemas
  | .objectArray b itemSchema => b.dflt.isNone && b.customValidate.isNone && plain itemSchema
  | .array _ _ => false
termination_by s => sizeOf s

/-- `plain` on every field schema of an object. -/
def plainFields : List (String × Schema) → Bool
  | [] => true
  | (k, sub) :: rest => plain sub && plainFields rest
termination_by fields => sizeOf fields

end

def Schema.inductionOn (motive : Schema → Prop)
    (hstring : ∀ b range, motive (.string b range))
    (hstringArray : ∀ b range, motive (.stringArray b range))
    (hnumber : ∀ b mn mx range, motive (.number b mn mx range))
    (hnumberArray : ∀ b mn mx range, motive (.numberArray b mn mx range))
    (hboolean : ∀ b, motive (.boolean b))
    (hbooleanArray : ∀ b, motive (.booleanArray b))
    (hobject : ∀ b fieldSchemas,
      (∀ q ∈ fieldSchemas, motive (Prod.snd q)) → motive (.object b fieldSchemas))
    (hobjectArray : ∀ b itemSchema, motive itemSchema → motive (.objectArray b itemSchema))
    (harray : ∀ b schemas, (∀ a ∈ schemas, motive a) → motive (.array b schemas)) :
    ∀ s, motive s
  | .string b range => hstring b range
  | .stringArray b range => hstringArray b range
  | .number b mn mx range => hnumber b mn mx range
  | .numberArray b mn mx range => hnumberArray b mn mx range
  | .boolean b => hboolean b
  | .booleanArray b => hbooleanArray b
  | .object b fieldSchemas => hobject b fieldSchemas (fun q hq =>
      Schema.inductionOn motive hstring hstringArray hnumber hnumberArray hboolean
        hbooleanArray hobject hobjectArray harray q.2)
  | .objectArray b itemSchema => hobjectArray b itemSchema
      (Schema.inductionOn motive hstring hstringArray hnumber hnumberArray hboolean
        hbooleanArray hobject hobjectArray harray itemSchema)
  | .array b schemas => harray b schemas (fun a ha =>
      Schema.inductionOn motive hstring hstringArray hnumber hnumberArray hboolean
        hbooleanArray hobject hobjectArray harray a)
termination_by s => sizeOf s
decreasing_by
  · have h1 := List.sizeOf_lt_of_mem hq
    have h2 : sizeOf q.2 < sizeOf q := by
      obtain ⟨a, c⟩ := q
      simp only [Prod.mk.sizeOf_spec]
      omega
    simp only [Schema.object.sizeOf_spec]
    omega
  · simp only [Schema.objectArray.sizeOf_spec]
    omega
  · have h1 := List.sizeOf_lt_of_mem ha
    simp only [Schema.array.sizeOf_spec]
    omega

/-- The base state of a schema built with `required: false` and nothing
else: no default, optional, built-in predicate. -/
def optionalBase : SchemaBase := { dflt := none, isRequired := false, customValidate := none }

/-- The base state after `setValidate(f)` on a schema built with no other
options: no default, required, custom predicate `f`. -/
def customBase (f : Value → Bool) : SchemaBase :=
  { dflt := none, isRequired := true, customValidate := some f }

/-- The base state of a schema built with only `defaultValue: d`. -/
def defaultValueBase (d : Value) : SchemaBase :=
  { dflt := some d, isRequired := true, customValidate := none }

/-- A schema accepts a value with a truthy result (the test
`_isValid && _result` of `ArraySchema.validate`). -/
def acceptsTruthy (s : Schema) (item : Value) : Bool :=
  (validate s item).1 && truthy (validate s item).2


theorem numberMaxValue_pos : 0 < numberMaxValue := by
  unfold numberMaxValue
  have h : (2 : Int) ^ 971 < 2 ^ 1024 := by
    apply pow_lt_pow_right₀ (by norm_num) (by norm_num)
  omega

theorem le_numberMaxValue_of_le_pow {n : Int} (h : n ≤ 2 ^ 971) : n ≤ numberMaxValue := by
  unfold numberMaxValue
  have h2 : (2 : Int) ^ 971 * 2 ≤ 2 ^ 1024 := by
    calc (2 : Int) ^ 971 * 2 = 2 ^ 972 := (pow_succ 2 971).symm
    _ ≤ 2 ^ 1024 := pow_le_pow_right₀ (by norm_num) (by norm_num)
  have h3 : (0 : Int) < 2 ^ 971 := pow_pos (by norm_num) 971
  omega

theorem nilCheck_not_nil {b : SchemaBase} {v : Value} (h : isNil v = false) :
    nilCheck b v = none := by
  simp [nilCheck, h]

theorem nilCheck_dflt {b : SchemaBase} {v : Value} {d : Value}
    (h : isNil v = true) (hd : b.dflt = some d) : nilCheck b v = some (true, d) := by
  simp [nilCheck, h, hd]

theorem nilCheck_notRequired {b : SchemaBase} {v : Value}
    (h : isNil v = true) (hd : b.dflt = none) (hr : b.isRequired = false) :
    nilCheck b v = some (true, .vUndefined) := by
  simp [nilCheck, h, hd, hr]

theorem nilCheck_required {b : SchemaBase} {v : Value}
    (hd : b.dflt = none) (hr : b.isRequired = true) : nilCheck b v = none := by
  simp [nilCheck, hd, hr]

/-- In every variant, a nil input with a stored default returns the default. -/
theorem validate_nil_default {s : Schema} {v : Value} {d : Value}
    (hnil : isNil v = true) (hd : s.base.dflt = some d) :
    validate s v = (true, d) := by
  cases s <;> cases v <;>
    simp_all [validate, baseValidate, Schema.base, nilCheck, isNil]

/-- In every variant, a nil input with no default on a non-required schema is
accepted with no value. -/
theorem validate_nil_notRequired {s : Schema} {v : Value}
    (hnil : isNil v = true) (hd : s.base.dflt = none) (hr : s.base.isRequired = false) :
    validate s v = (true, .vUndefined) := by
  cases s <;> cases v <;>
    simp_all [validate, baseValidate, Schema.base, nilCheck, isNil]

/-- Scalar variants run the inherited base-class `validate`. -/
theorem validate_scalar {s : Schema} (h : s.isScalarVariant = true) (v : Value) :
    validate s v = baseValidate s.base s.builtinPred v := by
  cases s <;> simp_all [Schema.isScalarVariant, validate, Schema.base, Schema.builtinPred]

/-- The inner loop of `ArraySchema.validate` picks the first alternative, in
declared order, that accepts the element with a truthy result, and uses its
sanitized result. -/
theorem firstAccepted_eq_find (schemas : List Schema) (item : Value) :
    firstAccepted schemas item =
      (schemas.find? (fun a => acceptsTruthy a item)).map (fun a => (validate a item).2) := by
  induction schemas with
  | nil => simp [firstAccepted]
  | cons a rest ih =>
    rw [firstAccepted]
    cases h : validate a item with
    | mk ok r =>
      by_cases hacc : (ok && truthy r) = true
      · simp [List.find?, acceptsTruthy, h, hacc]
      · simp only [List.find?, acceptsTruthy, h, hacc]
        simp only [Bool.not_eq_true] at hacc
        simp [hacc, ih, acceptsTruthy]

/-- The outer loop of `ArraySchema.validate` fails exactly when some element
has no accepting alternative. -/
theorem validateMixed_eq_none_iff (schemas : List Schema) (items : List Value) :
    validateMixed schemas items = none ↔
      ∃ x ∈ items, schemas.find? (fun a => acceptsTruthy a x) = none := by
  induction items with
  | nil => simp [validateMixed]
  | cons x rest ih =>
    rw [validateMixed, firstAccepted_eq_find]
    cases h : (schemas.find? (fun a => acceptsTruthy a x)) with
    | none =>
      simp only [Option.map_none']
      constructor
      · intro _
        exact ⟨x, List.mem_cons_self x rest, h⟩
      · intro _
        trivial
    | some a =>
      simp only [Option.map_some']
      cases hrec : validateMixed schemas rest with
      | none =>
        constructor
        · intro _
          obtain ⟨y, hy, hfind⟩ := ih.mp hrec
          exact ⟨y, List.mem_cons_of_mem x hy, hfind⟩
        · intro _
          trivial
      | some tl =>
        constructor
        · intro hc
          cases hc
        · rintro ⟨y, hy, hfind⟩
          rcases List.mem_cons.mp hy with hyx | hyr
          · rw [hyx] at hfind
            rw [h] at hfind
            cases hfind
          · have : validateMixed schemas rest = none := ih.mpr ⟨y, hyr, hfind⟩
            rw [hrec] at this
            cases this

/-- The outer loop of `ArraySchema.validate` succeeds exactly when each
element is matched, in order, with the sanitized result of its first
accepting alternative. -/
theorem validateMixed_eq_some_iff (schemas : List Schema) (items : List Value)
    (rs : List Value) :
    validateMixed schemas items = some rs ↔
      List.Forall₂ (fun x r => ∃ a, schemas.find? (fun s => acceptsTruthy s x) = some a ∧
        r = (validate a x).2) items rs := by
  induction items generalizing rs with
  | nil =>
    rw [validateMixed]
    simp [List.forall₂_nil_left_iff, eq_comm]
  | cons x rest ih =>
    rw [validateMixed, firstAccepted_eq_find]
    cases h : (schemas.find? (fun a => acceptsTruthy a x)) with
    | none =>
      simp only [Option.map_none']
      constructor
      · intro hc
        cases hc
      · intro hc
        rcases hc with _ | ⟨⟨a, ha, hr⟩, htl⟩
        rw [h] at ha
        cases ha
    | some a =>
      simp only [Option.map_some']
      cases hrec : validateMixed schemas rest with
      | none =>
        constructor
        · intro hc
          cases hc
        · intro hc
          rcases hc with _ | ⟨⟨a2, ha2, hr⟩, htl⟩
          have : validateMixed schemas rest = some _ := (ih _).mpr htl
          rw [hrec] at this
          cases this
      | some tl =>
        constructor
        · intro hc
          rw [Option.some_inj] at hc
          rw [← hc]
          exact List.Forall₂.cons ⟨a, h, rfl⟩ ((ih tl).mp hrec)
        · intro hc
          rcases hc with _ | ⟨⟨a2, ha2, hr⟩, htl⟩
          have h2 : validateMixed schemas rest = some _ := (ih _).mpr htl
          rw [hrec] at h2
          rw [Option.some_inj] at h2
          rw [h] at ha2
          rw [Option.some_inj] at ha2
          subst ha2
          subst h2
          rw [hr]

/-- The element loop of `ObjectArraySchema.validate` fails exactly when some
element is rejected by the item schema. -/
theorem validateItems_eq_none_iff (itemSchema : Schema) (items : List Value) :
    validateItems itemSchema items = none ↔
      ∃ x ∈ items, (validate itemSchema x).1 = false := by
  induction items with
  | nil => simp [validateItems]
  | cons x rest ih =>
    rw [validateItems]
    cases h : validate itemSchema x with
    | mk ok r =>
      cases ok with
      | false =>
        simp only
        constructor
        · intro _
          exact ⟨x, List.mem_cons_self x rest, by rw [h]⟩
        · intro _
          trivial
      | true =>
        cases hrec : validateItems itemSchema rest with
        | none =>
          simp only
          constructor
          · intro _
            obtain ⟨y, hy, hfail⟩ := ih.mp hrec
            exact ⟨y, List.mem_cons_of_mem x hy, hfail⟩
          · intro _
            trivial
        | some rs =>
          simp only
          constructor
          · intro hc
            cases hc
          · rintro ⟨y, hy, hfail⟩
            rcases List.mem_cons.mp hy with hyx | hyr
            · rw [hyx, h] at hfail
              cases hfail
            · have h2 := ih.mpr ⟨y, hyr, hfail⟩
              rw [hrec] at h2
              cases h2

/-- When every element passes the item schema, the element loop of
`ObjectArraySchema.validate` returns the sanitized results in input order,
omitting the nil ones. -/
theorem validateItems_eq_some (itemSchema : Schema) (items : List Value)
    (h : ∀ x ∈ items, (validate itemSchema x).1 = true) :
    validateItems itemSchema items =
      some ((items.map (fun x => (validate itemSchema x).2)).filter
        (fun r => !isNil r)) := by
  induction items with
  | nil => simp [validateItems]
  | cons x rest ih =>
    rw [validateItems]
    have hx := h x (List.mem_cons_self x rest)
    cases hv : validate itemSchema x with
    | mk ok r =>
      rw [hv] at hx
      subst hx
      rw [ih (fun y hy => h y (List.mem_cons_of_mem x hy))]
      simp only [List.map_cons, List.filter_cons, hv]
      cases hr : isNil r <;> simp [hr]

/-- A successful field loop of `ObjectSchema.validate` records, in
declaration order, one entry per declared field: the key and the child's
sanitized result (also when that result is `undefined`). -/
theorem validateFields_eq_some {fields : List (String × Schema)} {param : Value}
    {entries : List (String × Value)}
    (h : validateFields fields param = some entries) :
    entries = fields.map (fun q => (q.1, (validate q.2 (lookupField param q.1)).2)) ∧
      ∀ q ∈ fields, (validate q.2 (lookupField param q.1)).1 = true := by
  induction fields generalizing entries with
  | nil =>
    rw [validateFields] at h
    rw [Option.some_inj] at h
    subst h
    simp
  | cons q rest ih =>
    obtain ⟨key, sub⟩ := q
    rw [validateFields] at h
    cases hv : validate sub (lookupField param key) with
    | mk ok r =>
      rw [hv] at h
      cases ok with
      | false => cases h
      | true =>
        cases hrec : validateFields rest param with
        | none =>
          rw [hrec] at h
          cases h
        | some tl =>
          rw [hrec] at h
          rw [Option.some_inj] at h
          subst h
          obtain ⟨htl, hall⟩ := ih hrec
          constructor
          · simp only [List.map_cons, hv]
            rw [← htl]
          · intro q hq
            rcases List.mem_cons.mp hq with hq1 | hq2
            · subst hq1
              rw [hv]
            · exact hall q hq2

/-- When every declared field accepts its property, the field loop succeeds
with exactly those entries. -/
theorem validateFields_of_all {fields : List (String × Schema)} {param : Value}
    (h : ∀ q ∈ fields, (validate q.2 (lookupField param q.1)).1 = true) :
    validateFields fields param =
      some (fields.map (fun q => (q.1, (validate q.2 (lookupField param q.1)).2))) := by
  induction fields with
  | nil => rw [validateFields]; rfl
  | cons q rest ih =>
    obtain ⟨key, sub⟩ := q
    rw [validateFields]
    have hq := h (key, sub) (List.mem_cons_self _ _)
    cases hv : validate sub (lookupField param key) with
    | mk ok r =>
      rw [hv] at hq
      subst hq
      rw [ih (fun q hq => h q (List.mem_cons_of_mem _ hq))]
      simp [hv]

theorem plainFields_iff (fields : List (String × Schema)) :
    plainFields fields = true ↔ ∀ q ∈ fields, plain (Prod.snd q) = true := by
  induction fields with
  | nil => simp [plainFields]
  | cons q rest ih =>
    obtain ⟨k, sub⟩ := q
    rw [plainFields]
    simp [ih]

theorem plain_base {s : Schema} (h : plain s = true) :
    s.base.dflt = none ∧ s.base.customValidate = none := by
  cases s <;>
    simp_all [plain, Schema.base, Option.isNone_iff_eq_none]

/-- Every built-in scalar predicate is a type-tag check, so it rejects nil. -/
theorem builtinPred_nil {s : Schema} {v : Value}
    (hs : s.isScalarVariant = true) (hv : isNil v = true) :
    s.builtinPred v = false := by
  cases s <;> cases v <;>
    simp_all [Schema.isScalarVariant, Schema.builtinPred, isNil, stringPred,
      stringArrayPred, numberPred, numberArrayPred, isValidBoolean, booleanArrayPred]

theorem baseValidate_of_nilCheck_some {b : SchemaBase} {p : Value → Bool} {v : Value}
    {res : Bool × Value} (h : nilCheck b v = some res) : baseValidate b p v = res := by
  unfold baseValidate
  rw [h]

theorem baseValidate_of_nilCheck_none {b : SchemaBase} {p : Value → Bool} {v : Value}
    (h : nilCheck b v = none) :
    baseValidate b p v =
      if (b.customValidate.getD p) v then (true, v) else (false, .vUndefined) := by
  unfold baseValidate
  rw [h]

/-- Idempotence for the scalar variants with no default and no custom
predicate: the accepted result is either the input itself or `undefined`
(optional missing), and both re-validate to themselves. -/
theorem scalar_idem {s : Schema} {v r : Value}
    (hs : s.isScalarVariant = true) (hd : s.base.dflt = none)
    (hc : s.base.customValidate = none)
    (h : validate s v = (true, r)) : validate s r = (true, r) := by
  rw [validate_scalar hs] at h
  rw [validate_scalar hs]
  cases hnil : isNil v with
  | true =>
    cases hreq : s.base.isRequired with
    | false =>
      rw [baseValidate_of_nilCheck_some (nilCheck_notRequired hnil hd hreq)] at h
      rw [Prod.mk.injEq] at h
      obtain ⟨-, hr⟩ := h
      subst hr
      rw [baseValidate_of_nilCheck_some (nilCheck_notRequired (by simp [isNil]) hd hreq)]
    | true =>
      rw [baseValidate_of_nilCheck_none (nilCheck_required hd hreq), hc] at h
      simp only [Option.getD_none, builtinPred_nil hs hnil] at h
      simp at h
  | false =>
    rw [baseValidate_of_nilCheck_none (nilCheck_not_nil hnil), hc] at h
    cases hpred : s.builtinPred v with
    | false =>
      simp only [Option.getD_none, hpred] at h
      simp at h
    | true =>
      simp only [Option.getD_none, hpred, if_true] at h
      rw [Prod.mk.injEq] at h
      obtain ⟨-, hr⟩ := h
      subst hr
      rw [baseValidate_of_nilCheck_none (nilCheck_not_nil hnil), hc]
      simp [hpred]

theorem truthy_false_of_nil {v : Value} (h : isNil v = true) : truthy v = false := by
  cases v <;> simp_all [isNil, truthy]

/-- In every variant an early return of the shared nil block is the result. -/
theorem validate_nilCheck_some {s : Schema} {v : Value} {res : Bool × Value}
    (h : nilCheck s.base v = some res) : validate s v = res := by
  have hnil : isNil v = true := by
    by_contra hc
    rw [nilCheck_not_nil (Bool.not_eq_true _ ▸ (by simpa using hc))] at h
    cases h
  cases s <;> cases v <;>
    simp_all [validate, baseValidate, Schema.base, isNil]

theorem nilCheck_some_inv {b : SchemaBase} {v : Value} {res : Bool × Value}
    (hd : b.dflt = none) (h : nilCheck b v = some res) :
    isNil v = true ∧ b.isRequired = false ∧ res = (true, .vUndefined) := by
  unfold nilCheck at h
  rw [hd] at h
  cases hnil : isNil v with
  | false => rw [hnil] at h; simp at h
  | true =>
    rw [hnil] at h
    cases hreq : b.isRequired with
    | false => rw [hreq] at h; simp_all
    | true => rw [hreq] at h; simp at h

/-- `ObjectSchema.validate` without a custom predicate, past the nil block:
the field loop over `param || {}` decides the result. -/
theorem validate_object_custom_none {b : SchemaBase} {fields : List (String × Schema)}
    {v : Value} (hnc : nilCheck b v = none) (hc : b.customValidate = none) :
    validate (.object b fields) v =
      (match validateFields fields (if truthy v then v else .vObj []) with
       | some entries => (true, .vObj entries)
       | none => (false, .vUndefined)) := by
  simp only [validate, hnc, hc]

/-- `ObjectArraySchema.validate` without a custom predicate on an array. -/
theorem validate_objectArray_arr {b : SchemaBase} {itemSchema : Schema}
    {items : List Value} (hc : b.customValidate = none) :
    validate (.objectArray b itemSchema) (.vArr items) =
      (match validateItems itemSchema items with
       | some rs => (true, .vArr rs)
       | none => (false, .vUndefined)) := by
  have hnc : nilCheck b (.vArr items) = none := nilCheck_not_nil (by simp [isNil])
  simp only [validate, hnc, hc]

/-- `ObjectArraySchema.validate` rejects any non-array input that is not
short-circuited by the nil block. -/
theorem validate_objectArray_notArr {b : SchemaBase} {itemSchema : Schema} {v : Value}
    (hnc : nilCheck b v = none) (hv : ∀ xs, v ≠ .vArr xs) :
    validate (.objectArray b itemSchema) v = (false, .vUndefined) := by
  cases v <;> simp_all [validate]

/-- `ArraySchema.validate` without a custom predicate on an array. -/
theorem validate_array_arr {b : SchemaBase} {schemas : List Schema}
    {items : List Value} (hc : b.customValidate = none) :
    validate (.array b schemas) (.vArr items) =
      (match validateMixed schemas items with
       | some rs => (true, .vArr rs)
       | none => (false, .vUndefined)) := by
  have hnc : nilCheck b (.vArr items) = none := nilCheck_not_nil (by simp [isNil])
  simp only [validate, hnc, hc]

/-- `ArraySchema.validate` rejects any non-array input that is not
short-circuited by the nil block. -/
theorem validate_array_notArr {b : SchemaBase} {schemas : List Schema} {v : Value}
    (hnc : nilCheck b v = none) (hv : ∀ xs, v ≠ .vArr xs) :
    validate (.array b schemas) v = (false, .vUndefined) := by
  cases v <;> simp_all [validate]

/-- Association-list lookup on a key-preserving map of a nodup-keyed list. -/
theorem lookup_map_of_nodup {fields : List (String × Schema)} {k : String} {sub : Schema}
    (f : String × Schema → Value)
    (hnodup : (fields.map Prod.fst).Nodup) (hmem : (k, sub) ∈ fields) :
    List.lookup k (fields.map (fun q => (q.1, f q))) = some (f (k, sub)) := by
  induction fields with
  | nil => cases hmem
  | cons q rest ih =>
    obtain ⟨k0, s0⟩ := q
    rw [List.map_cons] at hnodup
    rw [List.nodup_cons] at hnodup
    rcases List.mem_cons.mp hmem with h1 | h2
    · rw [Prod.mk.injEq] at h1
      obtain ⟨hk, hs⟩ := h1
      subst hk
      subst hs
      simp [List.lookup]
    · by_cases hk : k = k0
      · subst hk
        exact absurd (List.mem_map_of_mem Prod.fst h2) hnodup.1
      · rw [List.map_cons, List.lookup]
        have : (k == k0) = false := beq_eq_false_iff_ne.mpr hk
        rw [this]
        exact ih hnodup.2 h2

/-- Re-validating the entries produced by a successful field loop (with
distinct, idempotent fields) reproduces exactly the same entries. -/
theorem validateFields_idem {fields : List (String × Schema)} {param : Value}
    {entries : List (String × Value)}
    (hnodup : (fields.map Prod.fst).Nodup)
    (hIH : ∀ q ∈ fields, ∀ v r, validate q.2 v = (true, r) → validate q.2 r = (true, r))
    (h : validateFields fields param = some entries) :
    validateFields fields (.vObj entries) = some entries := by
  obtain ⟨hent, hall⟩ := validateFields_eq_some h
  subst hent
  have hrevalid : ∀ q ∈ fields,
      validate q.2 (lookupField (.vObj (fields.map
        (fun q => (q.1, (validate q.2 (lookupField param q.1)).2)))) q.1) =
      (true, (validate q.2 (lookupField param q.1)).2) := by
    intro q hq
    have hlook : lookupField (.vObj (fields.map
        (fun q => (q.1, (validate q.2 (lookupField param q.1)).2)))) q.1 =
        (validate q.2 (lookupField param q.1)).2 := by
      obtain ⟨k, sub⟩ := q
      rw [lookupField]
      rw [lookup_map_of_nodup (fun q => (validate q.2 (lookupField param q.1)).2) hnodup hq]
      rfl
    rw [hlook]
    apply hIH q hq (lookupField param q.1)
    have h3 := hall q hq
    cases hv : validate q.2 (lookupField param q.1) with
    | mk ok r =>
      rw [hv] at h3
      subst h3
      rfl
  rw [validateFields_of_all (fun q hq => by rw [hrevalid q hq])]
  rw [Option.some_inj]
  apply List.map_congr_left
  intro q hq
  rw [hrevalid q hq]

/-- Every entry of a successful `ObjectArraySchema` element loop is a
non-nil sanitized result of the item schema on some element. -/
theorem validateItems_mem {itemSchema : Schema} {items rs : List Value}
    (h : validateItems itemSchema items = some rs) :
    ∀ y ∈ rs, isNil y = false ∧ ∃ x, validate itemSchema x = (true, y) := by
  induction items generalizing rs with
  | nil =>
    rw [validateItems] at h
    rw [Option.some_inj] at h
    subst h
    simp
  | cons x rest ih =>
    rw [validateItems] at h
    cases hv : validate itemSchema x with
    | mk ok r =>
      rw [hv] at h
      cases ok with
      | false => cases h
      | true =>
        cases hrec : validateItems itemSchema rest with
        | none => rw [hrec] at h; cases h
        | some tl =>
          rw [hrec] at h
          rw [Option.some_inj] at h
          subst h
          intro y hy
          cases hr : isNil r with
          | true =>
            rw [hr] at hy
            simp only [if_true] at hy
            exact ih hrec y hy
          | false =>
            rw [hr] at hy
            simp only [Bool.false_eq_true, if_false] at hy
            rcases List.mem_cons.mp hy with h1 | h2
            · subst h1
              exact ⟨hr, x, hv⟩
            · exact ih hrec y h2

/-- A list of non-nil fixed points of the item schema is reproduced by the
`ObjectArraySchema` element loop. -/
theorem validateItems_of_forall {itemSchema : Schema} {ys : List Value}
    (h : ∀ y ∈ ys, validate itemSchema y = (true, y) ∧ isNil y = false) :
    validateItems itemSchema ys = some ys := by
  induction ys with
  | nil => rw [validateItems]
  | cons y rest ih =>
    rw [validateItems]
    obtain ⟨hy, hnil⟩ := h y (List.mem_cons_self _ _)
    rw [hy]
    rw [ih (fun z hz => h z (List.mem_cons_of_mem _ hz))]
    simp [hnil]

theorem plain_object_inv {b : SchemaBase} {fields : List (String × Schema)}
    (h : plain (.object b fields) = true) :
    b.dflt = none ∧ b.customValidate = none ∧
      (fields.map Prod.fst).Nodup ∧ plainFields fields = true := by
  rw [plain] at h
  simp only [Bool.and_eq_true, Option.isNone_iff_eq_none, decide_eq_true_eq] at h
  exact ⟨h.1.1.1, h.1.1.2, h.1.2, h.2⟩

theorem plain_objectArray_inv {b : SchemaBase} {itemSchema : Schema}
    (h : plain (.objectArray b itemSchema) = true) :
    b.dflt = none ∧ b.customValidate = none ∧ plain itemSchema = true := by
  rw [plain] at h
  simp only [Bool.and_eq_true, Option.isNone_iff_eq_none] at h
  exact ⟨h.1.1, h.1.2, h.2⟩

/-- Idempotence of `validate` for schemas with no default, no custom
predicate, distinct object field names and no mixed-array variant. -/
theorem plain_idem :
    ∀ s : Schema, plain s = true →
      ∀ v r : Value, validate s v = (true, r) → validate s r = (true, r) := by
  apply Schema.inductionOn
    (motive := fun s => plain s = true →
      ∀ v r : Value, validate s v = (true, r) → validate s r = (true, r))
  case hstring =>
    intro b range hp v r h
    exact scalar_idem rfl (plain_base hp).1 (plain_base hp).2 h
  case hstringArray =>
    intro b range hp v r h
    exact scalar_idem rfl (plain_base hp).1 (plain_base hp).2 h
  case hnumber =>
    intro b mn mx range hp v r h
    exact scalar_idem rfl (plain_base hp).1 (plain_base hp).2 h
  case hnumberArray =>
    intro b mn mx range hp v r h
    exact scalar_idem rfl (plain_base hp).1 (plain_base hp).2 h
  case hboolean =>
    intro b hp v r h
    exact scalar_idem rfl (plain_base hp).1 (plain_base hp).2 h
  case hbooleanArray =>
    intro b hp v r h
    exact scalar_idem rfl (plain_base hp).1 (plain_base hp).2 h
  case hobject =>
    intro b fields IH hp v r h
    obtain ⟨hd, hc, hnodup, hpf⟩ := plain_object_inv hp
    have hIH : ∀ q ∈ fields, ∀ v r, validate q.2 v = (true, r) → validate q.2 r = (true, r) :=
      fun q hq => IH q hq ((plainFields_iff fields).mp hpf q hq)
    by_cases hnc : nilCheck b v = none
    · rw [validate_object_custom_none hnc hc] at h
      cases hvf : validateFields fields (if truthy v then v else .vObj []) with
      | none => simp [hvf] at h
      | some entries =>
        simp only [hvf, Prod.mk.injEq, true_and] at h
        subst h
        have hnc2 : nilCheck b (.vObj entries) = none := nilCheck_not_nil (by simp [isNil])
        rw [validate_object_custom_none hnc2 hc]
        simp [truthy, validateFields_idem hnodup hIH hvf]
    · obtain ⟨res, hres⟩ := Option.ne_none_iff_exists'.mp hnc
      obtain ⟨hnil, hreq, hres2⟩ := nilCheck_some_inv hd hres
      subst hres2
      rw [validate_nilCheck_some (s := .object b fields) hres] at h
      simp only [Prod.mk.injEq, true_and] at h
      subst h
      exact validate_nil_notRequired (by simp [isNil]) hd hreq
  case hobjectArray =>
    intro b itemSchema IH hp v r h
    obtain ⟨hd, hc, hpi⟩ := plain_objectArray_inv hp
    have hIH := IH hpi
    by_cases hnc : nilCheck b v = none
    · cases v with
      | vArr items =>
        rw [validate_objectArray_arr hc] at h
        cases hvi : validateItems itemSchema items with
        | none => simp [hvi] at h
        | some rs =>
          simp only [hvi, Prod.mk.injEq, true_and] at h
          subst h
          rw [validate_objectArray_arr hc]
          have hmem := validateItems_mem hvi
          have hself : validateItems itemSchema rs = some rs :=
            validateItems_of_forall (fun y hy => by
              obtain ⟨hn, x, hx⟩ := hmem y hy
              exact ⟨hIH x y hx, hn⟩)
          simp [hself]
      | vUndefined => rw [validate_objectArray_notArr hnc (by simp)] at h; simp at h
      | vNull => rw [validate_objectArray_notArr hnc (by simp)] at h; simp at h
      | vStr s => rw [validate_objectArray_notArr hnc (by simp)] at h; simp at h
      | vNum n => rw [validate_objectArray_notArr hnc (by simp)] at h; simp at h
      | vBool bb => rw [validate_objectArray_notArr hnc (by simp)] at h; simp at h
      | vObj fs => rw [validate_objectArray_notArr hnc (by simp)] at h; simp at h
    · obtain ⟨res, hres⟩ := Option.ne_none_iff_exists'.mp hnc
      obtain ⟨hnil, hreq, hres2⟩ := nilCheck_some_inv hd hres
      subst hres2
      rw [validate_nilCheck_some (s := .objectArray b itemSchema) hres] at h
      simp only [Prod.mk.injEq, true_and] at h
      subst h
      exact validate_nil_notRequired (by simp [isNil]) hd hreq
  case harray =>
    intro b schemas IH hp v r h
    rw [plain] at hp
    cases hp


theorem setDefault_base (s : Schema) (d : Value) :
    (s.setDefault d).base = { s.base with dflt := some d } := by
  cases s <;> rfl

/-- C2 counterexample: with the single alternative `Schema.number()` — which
accepts `0` with the non-absent sanitized result `0` — the mixed array `[0]`
is nevertheless rejected: the element loop demands a *truthy* result
(`_isValid && _result`), not merely a non-absent one. -/
theorem c2_counterexample :
    validate (.number defaultBase 0 numberMaxValue none) (.vNum 0) = (true, .vNum 0) ∧
    Value.vNum 0 ≠ Value.vUndefined ∧
    validate (.array defaultBase [.number defaultBase 0 numberMaxValue none])
      (.vArr [.vNum 0]) = (false, .vUndefined) := by
  have hnum : validate (.number defaultBase 0 numberMaxValue none) (.vNum 0) =
      (true, .vNum 0) := by
    simp [validate, baseValidate, nilCheck, isNil, defaultBase, numberPred,
      numberMaxValue_pos.le]
  refine ⟨hnum, by simp, ?_⟩
  rw [validate_array_arr rfl]
  simp [validateMixed, firstAccepted, hnum, truthy]

/-- C2 (amended): for a mixed `ArraySchema` without a custom predicate on an
array input, the alternatives are tried strictly in declared order; an
element is valid iff at least one alternative accepts it with a *truthy*
(not merely non-absent) result, and the first such alternative's sanitized
output becomes the sanitized element; if some element has no such
alternative, the whole call returns `(false, absent)` with no partial
output. -/
theorem c2_mixed_array_first_match {b : SchemaBase} (schemas : List Schema)
    (items : List Value) (hc : b.customValidate = none) :
    (validate (.array b schemas) (.vArr items) = (false, .vUndefined) ↔
      ∃ x ∈ items, schemas.find? (fun a => acceptsTruthy a x) = none) ∧
    (∀ rs : List Value,
      validate (.array b schemas) (.vArr items) = (true, .vArr rs) ↔
        List.Forall₂ (fun x r => ∃ a,
          schemas.find? (fun s => acceptsTruthy s x) = some a ∧
          r = (validate a x).2) items rs) := by
  rw [validate_array_arr hc]
  constructor
  · cases hvm : validateMixed schemas items with
    | none =>
      constructor
      · intro _
        exact (validateMixed_eq_none_iff schemas items).mp hvm
      · intro _
        trivial
    | some rs =>
      constructor
      · intro hc2
        cases hc2
      · intro hex
        have h2 := (validateMixed_eq_none_iff schemas items).mpr hex
        rw [hvm] at h2
        cases h2
  · intro rs
    cases hvm : validateMixed schemas items with
    | none =>
      constructor
      · intro hc2
        cases hc2
      · intro hf
        have h2 := (validateMixed_eq_some_iff schemas items rs).mpr hf
        rw [hvm] at h2
        cases h2
    | some rs0 =>
      constructor
      · intro heq
        rw [Prod.mk.injEq] at heq
        obtain ⟨-, heq⟩ := heq
        have h3 : rs0 = rs := by injection heq
        subst h3
        exact (validateMixed_eq_some_iff schemas items rs0).mp hvm
      · intro hf
        have h2 := (validateMixed_eq_some_iff schemas items rs).mpr hf
        rw [hvm] at h2
        rw [Option.some_inj] at h2
        subst h2
        rfl

/-- C2 witness: `[true]` against the single alternative `Schema.boolean()`
is accepted with the first (and only) alternative's sanitized output. -/
theorem c2_witness :
    validate (.array defaultBase [.boolean defaultBase]) (.vArr [.vBool true]) =
      (true, .vArr [.vBool true]) := by
  have hb : validate (.boolean defaultBase) (.vBool true) = (true, .vBool true) := by
    simp [validate, baseValidate, nilCheck, isNil, defaultBase, isValidBoolean]
  apply ((c2_mixed_array_first_match (b := defaultBase) [.boolean defaultBase]
    [.vBool true] rfl).2 [.vBool true]).mpr
  refine List.Forall₂.cons ⟨.boolean defaultBase, ?_, by rw [hb]⟩ List.Forall₂.nil
  simp [List.find?, acceptsTruthy, hb, truthy]

/-- C3 counterexample: an object schema with one optional string field, on an
empty input mapping, accepts — but the output mapping is not empty: the field
appears with an `undefined` value (`result[key] = _result` is executed also
when the child result is absent), instead of being omitted as claimed. -/
theorem c3_counterexample :
    validate (.object defaultBase [("foo", .string optionalBase none)]) (.vObj []) =
      (true, .vObj [("foo", .vUndefined)]) ∧
    Value.vObj [("foo", .vUndefined)] ≠ Value.vObj [] := by
  constructor
  · rw [validate_object_custom_none (nilCheck_not_nil (v := .vObj []) rfl) rfl]
    have hs : validate (.string optionalBase none)
        (lookupField (.vObj []) "foo") = (true, .vUndefined) := by
      simp [validate, baseValidate, nilCheck, isNil, optionalBase, lookupField]
    simp [validateFields, truthy, hs]
  · simp

/-- C3 (amended): for an `ObjectSchema` without a custom predicate, a
successful validation of a mapping produces an output with exactly the keys
of `fieldSchemas` in declaration order, each bound to the child's sanitized
result — extra input keys are dropped, but a field whose child result is
absent appears as an entry with an `undefined` value rather than being
omitted. -/
theorem c3_object_output_entries {b : SchemaBase} {fields : List (String × Schema)}
    {m : List (String × Value)} {r : Value} (hc : b.customValidate = none)
    (h : validate (.object b fields) (.vObj m) = (true, r)) :
    r = .vObj (fields.map (fun q =>
      (q.1, (validate q.2 (lookupField (.vObj m) q.1)).2))) := by
  rw [validate_object_custom_none (nilCheck_not_nil (v := .vObj m) rfl) hc] at h
  simp only [truthy, if_true] at h
  cases hvf : validateFields fields (.vObj m) with
  | none =>
    rw [hvf] at h
    cases h
  | some entries =>
    rw [hvf] at h
    rw [Prod.mk.injEq] at h
    obtain ⟨-, h⟩ := h
    rw [← h, (validateFields_eq_some hvf).1]

/-- C3 witness: `{foo: string()}` on input `{foo: "a", bar: 1}` yields
exactly `{foo: "a"}` — `bar` is dropped and the output keys are exactly the
declared fields. -/
theorem c3_witness :
    Value.vObj [("foo", .vStr "a")] =
      .vObj ([("foo", Schema.string defaultBase none)].map (fun q =>
        (q.1, (validate q.2
          (lookupField (.vObj [("foo", .vStr "a"), ("bar", .vNum 1)]) q.1)).2))) := by
  apply c3_object_output_entries (b := defaultBase) rfl
  rw [validate_object_custom_none
    (nilCheck_not_nil (v := .vObj [("foo", .vStr "a"), ("bar", .vNum 1)]) rfl) rfl]
  have hs : validate (.string defaultBase none) (.vStr "a") = (true, .vStr "a") := by
    simp [validate, baseValidate, nilCheck, isNil, defaultBase, stringPred]
  simp [validateFields, truthy, hs, lookupField, List.lookup]

/-- C4: a `NumberSchema` without a custom predicate accepts exactly the
number values that are in `range` when set (range fully replaces the
min/max bounds, e.g. `range=[0,1,2]` with `min=5` accepts `0`), else within
`[min, max]` inclusive; the factory defaults are `min = 0` (so `-1` rejects
and `0` accepts) and `max = Number.MAX_VALUE`. -/
theorem c4_number_bounds :
    (∀ (b : SchemaBase) (mn mx : Int) (range : Option (List Int)) (v : Value),
      b.customValidate = none → isNil v = false →
      validate (.number b mn mx range) v =
        (if numberPred mn mx range v then (true, v) else (false, .vUndefined))) ∧
    (∀ (mn mx : Int) (range : Option (List Int)) (v : Value),
      numberPred mn mx range v = true ↔
        ∃ n : Int, v = .vNum n ∧
          (match range with
           | some rg => n ∈ rg
           | none => mn ≤ n ∧ n ≤ mx)) ∧
    validate (numberSchemaOfOptions none none none none none none) (.vNum (-1)) =
      (false, .vUndefined) ∧
    validate (numberSchemaOfOptions none none none none none none) (.vNum 0) =
      (true, .vNum 0) ∧
    validate (numberSchemaOfOptions none none none (some 5) none (some [0, 1, 2]))
      (.vNum 0) = (true, .vNum 0) := by
  refine ⟨?_, ?_, ?_, ?_, ?_⟩
  · intro b mn mx range v hc hnil
    rw [validate_scalar (s := .number b mn mx range) rfl,
      baseValidate_of_nilCheck_none (nilCheck_not_nil hnil)]
    simp [Schema.base, Schema.builtinPred, hc]
  · intro mn mx range v
    cases v <;> cases range <;> simp [numberPred]
  · simp [numberSchemaOfOptions, validate, baseValidate, nilCheck, isNil, numberPred]
  · simp [numberSchemaOfOptions, validate, baseValidate, nilCheck, isNil, numberPred,
      numberMaxValue_pos.le]
  · simp [numberSchemaOfOptions, validate, baseValidate, nilCheck, isNil, numberPred]

/-- C4 witness: a `NumberSchema` with `min=3`, `max=5` accepts `4`. -/
theorem c4_witness :
    validate (.number defaultBase 3 5 none) (.vNum 4) = (true, .vNum 4) := by
  have h := c4_number_bounds.1 defaultBase 3 5 none (.vNum 4) rfl rfl
  rw [h]
  norm_num [numberPred]

/-- C5: an `ObjectSchema` carrying a custom predicate applies it to the raw
input mapping, and on success returns a shallow copy of every input key; the
configured field schemas do not occur in the result at all. -/
theorem c5_object_custom_predicate {b : SchemaBase} (fields : List (String × Schema))
    (f : Value → Bool) (m : List (String × Value)) (hc : b.customValidate = some f) :
    validate (.object b fields) (.vObj m) =
      (if f (.vObj m) then (true, .vObj m) else (false, .vUndefined)) := by
  simp only [validate, nilCheck_not_nil (v := .vObj m) rfl, hc, truthy, if_true,
    ownEnumerableEntries]

/-- C5 witness: `setValidate(() => true)` on an object schema that still has
a field schema configured: `validate({anything: 1})` returns
`(true, {anything: 1})`, the field schemas are not consulted. -/
theorem c5_witness :
    validate ((Schema.object defaultBase
        [("foo", .string defaultBase none)]).setValidate (fun _ => true))
      (.vObj [("anything", .vNum 1)]) = (true, .vObj [("anything", .vNum 1)]) := by
  have h := c5_object_custom_predicate (b := { defaultBase with
      customValidate := some (fun _ => true) })
    [("foo", .string defaultBase none)] (fun _ => true) [("anything", .vNum 1)] rfl
  simpa [Schema.setValidate, Schema.withBase, Schema.base, defaultBase] using h

/-- C6 counterexample: an `ObjectSchema` with no field schemas and no custom
predicate accepts the non-mapping input `5` with result `{}` — it does not
validate that its input is a mapping. -/
theorem c6_counterexample :
    validate (.object defaultBase []) (.vNum 5) = (true, .vObj []) ∧
    ((true, Value.vObj []) : Bool × Value) ≠ ((false, Value.vUndefined) : Bool × Value) := by
  constructor
  · rw [validate_object_custom_none (nilCheck_not_nil (v := .vNum 5) rfl) rfl]
    simp [validateFields, truthy]
  · simp

/-- C6 (amended): `ObjectSchema.validate` does not check that its input is a
mapping; without a custom predicate, a non-nil non-mapping input is
validated by looking up each declared field on it, so with no field schemas
configured every non-nil value — mapping or not — is accepted with an empty
output mapping. -/
theorem c6_object_no_mapping_check :
    ∀ (b : SchemaBase) (v : Value), b.customValidate = none → isNil v = false →
      validate (.object b []) v = (true, .vObj []) := by
  intro b v hc hnil
  rw [validate_object_custom_none (nilCheck_not_nil hnil) hc]
  simp [validateFields]

/-- C6 witness: the non-mapping (and even falsy) input `false` is accepted
by `Schema.object()` with an empty output mapping. -/
theorem c6_witness :
    validate (.object defaultBase []) (.vBool false) = (true, .vObj []) :=
  c6_object_no_mapping_check defaultBase (.vBool false) rfl rfl

/-- C7: an `ObjectArraySchema` without a custom predicate on an array input
fails with `(false, absent)` exactly when some element is rejected by the
item schema (so a failing element rejects the whole array even if later
elements would pass), and when every element passes, the result is a
freshly built sequence of the non-absent sanitized elements in input
order. -/
theorem c7_object_array_elements {b : SchemaBase} (itemSchema : Schema)
    (items : List Value) (hc : b.customValidate = none) :
    (validate (.objectArray b itemSchema) (.vArr items) = (false, .vUndefined) ↔
      ∃ x ∈ items, (validate itemSchema x).1 = false) ∧
    ((∀ x ∈ items, (validate itemSchema x).1 = true) →
      validate (.objectArray b itemSchema) (.vArr items) =
        (true, .vArr ((items.map (fun x => (validate itemSchema x).2)).filter
          (fun r => !isNil r)))) := by
  rw [validate_objectArray_arr hc]
  constructor
  · cases hvi : validateItems itemSchema items with
    | none =>
      constructor
      · intro _
        exact (validateItems_eq_none_iff itemSchema items).mp hvi
      · intro _
        trivial
    | some rs =>
      constructor
      · intro hc2
        cases hc2
      · intro hex
        have h2 := (validateItems_eq_none_iff itemSchema items).mpr hex
        rw [hvi] at h2
        cases h2
  · intro hall
    rw [validateItems_eq_some itemSchema items hall]

/-- C7 witness: `[{}, null]` under an item schema `Schema.object()` that is
optional: the mapping element sanitizes to `{}`, the nil element is accepted
with an absent result and omitted, and order is preserved. -/
theorem c7_witness :
    validate (.objectArray defaultBase (.object optionalBase []))
      (.vArr [.vObj [("x", .vNum 2)], .vNull]) = (true, .vArr [.vObj []]) := by
  have h1 : validate (.object optionalBase []) (.vObj [("x", .vNum 2)]) =
      (true, .vObj []) := by
    rw [validate_object_custom_none (nilCheck_not_nil (v := .vObj [("x", .vNum 2)]) rfl) rfl]
    simp [validateFields, truthy]
  have h2 : validate (.object optionalBase []) Value.vNull = (true, .vUndefined) :=
    validate_nil_notRequired rfl rfl rfl
  have h := (c7_object_array_elements (b := defaultBase)
    (.object optionalBase []) [.vObj [("x", .vNum 2)], .vNull] rfl).2
    (by
      intro x hx
      rcases List.mem_cons.mp hx with h3 | h3
      · rw [h3, h1]
      · rcases List.mem_cons.mp h3 with h4 | h4
        · rw [h4, h2]
        · cases h4)
  rw [h]
  simp [h1, h2, isNil]

/-- C8 counterexample, two independent failures of idempotence.
(1) A default that the predicate would reject: `number().setDefault(-1)`
maps nil to `(true, -1)`, but re-validating `-1` yields `(false, absent)`.
(2) An `ObjectSchema` (no defaults, no custom predicates) with a mixed-array
field whose alternatives are the object schemas `{a?: boolean, b: boolean}`
then `{b: boolean}`: the input `{m: [{a: 5, b: true}]}` sanitizes to
`{m: [{b: true}]}`, but re-validating that output lets the *first*
alternative accept the element and re-sanitize it to
`{a: undefined, b: true}`, so the accepted value drifts. -/
theorem c8_counterexample :
    (validate (.number (defaultValueBase (.vNum (-1))) 0 numberMaxValue none) .vNull =
        (true, .vNum (-1)) ∧
      validate (.number (defaultValueBase (.vNum (-1))) 0 numberMaxValue none)
        (.vNum (-1)) = (false, .vUndefined)) ∧
    (validate (.object defaultBase [("m", .array defaultBase
        [.object defaultBase [("a", .boolean optionalBase), ("b", .boolean defaultBase)],
         .object defaultBase [("b", .boolean defaultBase)]])])
        (.vObj [("m", .vArr [.vObj [("a", .vNum 5), ("b", .vBool true)]])]) =
        (true, .vObj [("m", .vArr [.vObj [("b", .vBool true)]])]) ∧
      validate (.object defaultBase [("m", .array defaultBase
        [.object defaultBase [("a", .boolean optionalBase), ("b", .boolean defaultBase)],
         .object defaultBase [("b", .boolean defaultBase)]])])
        (.vObj [("m", .vArr [.vObj [("b", .vBool true)]])]) =
        (true, .vObj [("m", .vArr [.vObj [("a", .vUndefined), ("b", .vBool true)]])]) ∧
      Value.vObj [("m", .vArr [.vObj [("a", .vUndefined), ("b", .vBool true)]])] ≠
        .vObj [("m", .vArr [.vObj [("b", .vBool true)]])]) := by
  have hb5 : validate (.boolean optionalBase) (.vNum 5) = (false, .vUndefined) := by
    simp [validate, baseValidate, nilCheck, isNil, optionalBase, isValidBoolean]
  have hbt : validate (.boolean defaultBase) (.vBool true) = (true, .vBool true) := by
    simp [validate, baseValidate, nilCheck, isNil, defaultBase, isValidBoolean]
  have hbu : validate (.boolean optionalBase) Value.vUndefined = (true, .vUndefined) :=
    validate_nil_notRequired rfl rfl rfl
  have hobj1x : validate (.object defaultBase
      [("a", .boolean optionalBase), ("b", .boolean defaultBase)])
      (.vObj [("a", .vNum 5), ("b", .vBool true)]) = (false, .vUndefined) := by
    rw [validate_object_custom_none
      (nilCheck_not_nil (v := .vObj [("a", .vNum 5), ("b", .vBool true)]) rfl) rfl]
    simp [validateFields, lookupField, List.lookup, truthy, hb5]
  have hobj2x : validate (.object defaultBase [("b", .boolean defaultBase)])
      (.vObj [("a", .vNum 5), ("b", .vBool true)]) =
      (true, .vObj [("b", .vBool true)]) := by
    rw [validate_object_custom_none
      (nilCheck_not_nil (v := .vObj [("a", .vNum 5), ("b", .vBool true)]) rfl) rfl]
    simp [validateFields, lookupField, List.lookup, truthy, hbt]
  have hobj1y : validate (.object defaultBase
      [("a", .boolean optionalBase), ("b", .boolean defaultBase)])
      (.vObj [("b", .vBool true)]) =
      (true, .vObj [("a", .vUndefined), ("b", .vBool true)]) := by
    rw [validate_object_custom_none
      (nilCheck_not_nil (v := .vObj [("b", .vBool true)]) rfl) rfl]
    simp [validateFields, lookupField, List.lookup, truthy, hbu, hbt]
  have hmixx : validate (.array defaultBase
      [.object defaultBase [("a", .boolean optionalBase), ("b", .boolean defaultBase)],
       .object defaultBase [("b", .boolean defaultBase)]])
      (.vArr [.vObj [("a", .vNum 5), ("b", .vBool true)]]) =
      (true, .vArr [.vObj [("b", .vBool true)]]) := by
    rw [validate_array_arr rfl]
    simp [validateMixed, firstAccepted, hobj1x, hobj2x, truthy]
  have hmixy : validate (.array defaultBase
      [.object defaultBase [("a", .boolean optionalBase), ("b", .boolean defaultBase)],
       .object defaultBase [("b", .boolean defaultBase)]])
      (.vArr [.vObj [("b", .vBool true)]]) =
      (true, .vArr [.vObj [("a", .vUndefined), ("b", .vBool true)]]) := by
    rw [validate_array_arr rfl]
    simp [validateMixed, firstAccepted, hobj1y, truthy]
  refine ⟨⟨validate_nil_default rfl rfl, ?_⟩, ?_, ?_, by simp⟩
  · simp [validate, baseValidate, nilCheck, isNil, defaultValueBase, numberPred]
  · rw [validate_object_custom_none (nilCheck_not_nil
      (v := .vObj [("m", .vArr [.vObj [("a", .vNum 5), ("b", .vBool true)]])]) rfl) rfl]
    simp [validateFields, lookupField, List.lookup, truthy, hmixx]
  · rw [validate_object_custom_none (nilCheck_not_nil
      (v := .vObj [("m", .vArr [.vObj [("b", .vBool true)]])]) rfl) rfl]
    simp [validateFields, lookupField, List.lookup, truthy, hmixy]

/-- C8 (amended): re-validating a sanitized output yields the same accepted
result for every scalar schema (string, number, boolean and their array
forms), `ObjectSchema` and `ObjectArraySchema`, provided the schema tree
carries no default value and no custom predicate anywhere, object field
names are distinct, and no mixed-`array` schema occurs in the tree; the
property fails when a stored default would itself be rejected by the
predicate, and for objects containing a mixed-array field even with no
defaults. -/
theorem c8_idempotent {s : Schema} (hp : plain s = true) {v r : Value}
    (h : validate s v = (true, r)) : validate s r = (true, r) :=
  plain_idem s hp v r h

/-- C8 witness: re-validating the sanitized output of an object schema with
a boolean field (extra input key dropped) reproduces it unchanged. -/
theorem c8_witness :
    validate (.object defaultBase [("a", .boolean defaultBase)])
      (.vObj [("a", .vBool true)]) = (true, .vObj [("a", .vBool true)]) := by
  have hbt : validate (.boolean defaultBase) (.vBool true) = (true, .vBool true) := by
    simp [validate, baseValidate, nilCheck, isNil, defaultBase, isValidBoolean]
  have hfirst : validate (.object defaultBase [("a", .boolean defaultBase)])
      (.vObj [("a", .vBool true), ("x", .vNum 0)]) = (true, .vObj [("a", .vBool true)]) := by
    rw [validate_object_custom_none
      (nilCheck_not_nil (v := .vObj [("a", .vBool true), ("x", .vNum 0)]) rfl) rfl]
    simp [validateFields, lookupField, List.lookup, truthy, hbt]
  exact c8_idempotent (by simp [plain, plainFields, defaultBase]) hfirst

/-- C9: inconsistent constraints never fail at construction (constructors
are total) but yield all-rejecting predicates: a `NumberSchema` with
`min > max` and no range rejects every number, an empty `range` on a
`NumberSchema` or `StringSchema` rejects every number/string, while nil
inputs short-circuited by a default or by `required=false` are still
accepted. -/
theorem c9_inconsistent_config :
    (∀ (b : SchemaBase) (mn mx n : Int), b.customValidate = none → mx < mn →
      validate (.number b mn mx none) (.vNum n) = (false, .vUndefined)) ∧
    (∀ (b : SchemaBase) (mn mx n : Int), b.customValidate = none →
      validate (.number b mn mx (some [])) (.vNum n) = (false, .vUndefined)) ∧
    (∀ (b : SchemaBase) (s : String), b.customValidate = none →
      validate (.string b (some [])) (.vStr s) = (false, .vUndefined)) ∧
    (∀ (b : SchemaBase) (mn mx : Int) (v d : Value), isNil v = true →
      b.dflt = some d → validate (.number b mn mx (some [])) v = (true, d)) ∧
    (∀ (b : SchemaBase) (mn mx : Int) (v : Value), isNil v = true →
      b.dflt = none → b.isRequired = false →
      validate (.number b mn mx none) v = (true, .vUndefined)) := by
  refine ⟨?_, ?_, ?_,
    fun b mn mx v d hnil hd => validate_nil_default hnil hd,
    fun b mn mx v hnil hd hr => validate_nil_notRequired hnil hd hr⟩
  · intro b mn mx n hc hlt
    rw [validate_scalar (s := .number b mn mx none) rfl,
      baseValidate_of_nilCheck_none (nilCheck_not_nil (v := .vNum n) rfl)]
    have hp : numberPred mn mx none (.vNum n) = false := by
      simp only [numberPred, Bool.and_eq_false_iff, decide_eq_false_iff_not, not_le]
      omega
    simp [Schema.base, Schema.builtinPred, hc, hp]
  · intro b mn mx n hc
    rw [validate_scalar (s := .number b mn mx (some [])) rfl,
      baseValidate_of_nilCheck_none (nilCheck_not_nil (v := .vNum n) rfl)]
    simp [Schema.base, Schema.builtinPred, hc, numberPred]
  · intro b s hc
    rw [validate_scalar (s := .string b (some [])) rfl,
      baseValidate_of_nilCheck_none (nilCheck_not_nil (v := .vStr s) rfl)]
    simp [Schema.base, Schema.builtinPred, hc, stringPred]

/-- C9 witness: `min=5 > max=3` rejects `4`; an empty range rejects `"a"`;
a default still survives an empty range on a nil input. -/
theorem c9_witness :
    validate (.number defaultBase 5 3 none) (.vNum 4) = (false, .vUndefined) ∧
    validate (.string defaultBase (some [])) (.vStr "a") = (false, .vUndefined) ∧
    validate (.number (defaultValueBase (.vNum 1)) 5 3 (some [])) .vNull =
      (true, .vNum 1) :=
  ⟨c9_inconsistent_config.1 defaultBase 5 3 4 rfl (by norm_num),
   c9_inconsistent_config.2.2.1 defaultBase "a" rfl,
   c9_inconsistent_config.2.2.2.1 (defaultValueBase (.vNum 1)) 5 3 .vNull (.vNum 1)
     rfl rfl⟩

/-- C10: whenever a default value is stored (via the `defaultValue`
construction option — falsy values included, since presence is tracked by a
separate flag — or via `setDefault`), a nil input returns the stored default
verbatim with no predicate or bound check: a default that direct validation
would reject is still returned as accepted. -/
theorem c10_default_verbatim :
    (∀ (s : Schema) (v d : Value), isNil v = true → s.base.dflt = some d →
      validate s v = (true, d)) ∧
    (∀ (s : Schema) (v d : Value), isNil v = true →
      validate (s.setDefault d) v = (true, d)) ∧
    validate (.number (defaultValueBase (.vNum (-7))) 0 numberMaxValue none) .vUndefined =
      (true, .vNum (-7)) ∧
    validate (.number (defaultValueBase (.vNum (-7))) 0 numberMaxValue none)
      (.vNum (-7)) = (false, .vUndefined) := by
  refine ⟨fun s v d hnil hd => validate_nil_default hnil hd, ?_,
    validate_nil_default rfl rfl, ?_⟩
  · intro s v d hnil
    exact validate_nil_default hnil (by rw [setDefault_base])
  · simp [validate, baseValidate, nilCheck, isNil, defaultValueBase, numberPred]

/-- C10 witness: the falsy default `false` set through `setDefault` is
returned verbatim for an undefined input. -/
theorem c10_witness :
    validate ((Schema.boolean defaultBase).setDefault (.vBool false)) .vUndefined =
      (true, .vBool false) :=
  c10_default_verbatim.2.1 (.boolean defaultBase) .vUndefined (.vBool false) rfl

/-- C1 counterexample: an `ArraySchema` that is required and has no default,
carrying a custom predicate that accepts everything (nil included), still
rejects a nil input with `(false, absent)`: the required/no-default path does
not reach the predicate for the array variants, contrary to the claim that
it falls through to the predicate for every schema variant. -/
theorem c1_counterexample :
    validate (.array (customBase (fun _ => true)) []) .vNull = (false, .vUndefined) ∧
    (fun (_ : Value) => true) Value.vNull = true := by
  constructor
  · exact validate_array_notArr (nilCheck_required rfl rfl) (by simp)
  · rfl

/-- C1 (amended): for every variant, a nil input with a default yields the
default, and a nil input with no default on a non-required schema yields
absent; the required/no-default fall-through applies the effective predicate
to the nil value itself only for the scalar variants (string, number,
boolean and their array forms), so only there can a custom predicate accept
nil; an `ObjectSchema` instead runs its custom predicate on an empty mapping
substituted for nil, and `ObjectArraySchema` and `ArraySchema` reject nil
before consulting any predicate. -/
theorem c1_nil_semantics :
    (∀ (s : Schema) (v d : Value), isNil v = true → s.base.dflt = some d →
      validate s v = (true, d)) ∧
    (∀ (s : Schema) (v : Value), isNil v = true → s.base.dflt = none →
      s.base.isRequired = false → validate s v = (true, .vUndefined)) ∧
    (∀ (s : Schema) (v : Value), s.isScalarVariant = true → isNil v = true →
      s.base.dflt = none → s.base.isRequired = true →
      validate s v = (if s.effValidate v then (true, v) else (false, .vUndefined))) ∧
    (∀ (b : SchemaBase) (fields : List (String × Schema)) (f : Value → Bool) (v : Value),
      isNil v = true → b.dflt = none → b.isRequired = true → b.customValidate = some f →
      validate (.object b fields) v =
        (if f (.vObj []) then (true, .vObj []) else (false, .vUndefined))) ∧
    (∀ (b : SchemaBase) (itemSchema : Schema) (v : Value), isNil v = true →
      b.dflt = none → b.isRequired = true →
      validate (.objectArray b itemSchema) v = (false, .vUndefined)) ∧
    (∀ (b : SchemaBase) (schemas : List Schema) (v : Value), isNil v = true →
      b.dflt = none → b.isRequired = true →
      validate (.array b schemas) v = (false, .vUndefined)) := by
  refine ⟨fun s v d hnil hd => validate_nil_default hnil hd,
    fun s v hnil hd hr => validate_nil_notRequired hnil hd hr, ?_, ?_, ?_, ?_⟩
  · intro s v hs hnil hd hr
    rw [validate_scalar hs, baseValidate_of_nilCheck_none (nilCheck_required hd hr)]
    rfl
  · intro b fields f v hnil hd hr hc
    simp only [validate, nilCheck_required hd hr, hc, truthy_false_of_nil hnil,
      Bool.false_eq_true, if_false, ownEnumerableEntries]
  · intro b itemSchema v hnil hd hr
    exact validate_objectArray_notArr (nilCheck_required hd hr)
      (by cases v <;> simp_all [isNil])
  · intro b schemas v hnil hd hr
    exact validate_array_notArr (nilCheck_required hd hr)
      (by cases v <;> simp_all [isNil])

/-- C1 witness: a scalar (string) schema whose custom predicate explicitly
accepts nil does accept a null input on the required/no-default path. -/
theorem c1_witness :
    validate (.string (customBase (fun v => isNil v)) none) .vNull = (true, .vNull) := by
  have h := c1_nil_semantics.2.2.1 (.string (customBase (fun v => isNil v)) none)
    .vNull rfl rfl rfl rfl
  simpa [Schema.effValidate, Schema.base, customBase, isNil] using h
